import Mathlib

/-!
Shallow embedding of the Account Pool & Safety Controller of the SOVO2 bot:
`src/safety/CircuitBreaker.js` and `src/wallet/WalletManager.js`.

JavaScript numbers that only ever hold small non-negative integers are
embedded as `Nat`; `BN` (big-number) arithmetic on lamport amounts is exact
integer arithmetic on non-negative values and is embedded as `Nat` with
floor division; JavaScript floating-point factors that the code immediately
scales to integers (or whose claims are about exact decimal values) are
embedded as exact rationals `ℚ`.  Asynchronous network interactions are
embedded as explicit environments: each network call's outcome (a value or
a thrown error) is a field of the environment record, and a method that
awaits the network becomes a pure function of the state and the environment.
Randomness is embedded the same way: every `Math.random()` draw becomes an
explicit parameter holding the drawn value.
-/

namespace SOVO

/-- The configuration fields read by the embedded operations
(`ConfigManager` is external to the repository; these are exactly the
fields the embedded methods dereference). -/
structure Config where
  enableCircuitBreaker : Bool
  maxConsecutiveFailures : Nat
  failureRateWindow : Nat
  maxFailureRate : ℚ
  emergencyStopLoss : ℚ
  numWalletsToGenerate : Nat
  fundAmount : ℚ
  minWalletCooldownMs : ℚ
  maxWalletCooldownMs : ℚ
  deriving Repr, DecidableEq

/-- State of `CircuitBreaker` (constructor fields of the class). -/
structure CircuitBreaker where
  config : Config
  consecutiveFailures : Nat
  recentTrades : List Bool
  initialSinkBalance : Int
  checkCounter : Nat
  deriving Repr, DecidableEq

/-- The freshly constructed breaker: `consecutiveFailures = 0`,
`recentTrades = []`, `initialSinkBalance = 0n`, `checkCounter = 0`. -/
def CircuitBreaker.init (config : Config) : CircuitBreaker :=
  { config := config
    consecutiveFailures := 0
    recentTrades := []
    initialSinkBalance := 0
    checkCounter := 0 }

/-- `recordTradeResult(success)`: push the outcome at the end of
`recentTrades`, shift the oldest out when the window is exceeded, and
reset or bump `consecutiveFailures`.  A no-op when the breaker is
disabled. -/
def recordTradeResult (cb : CircuitBreaker) (success : Bool) : CircuitBreaker :=
  if !cb.config.enableCircuitBreaker then cb
  else
    let pushed := cb.recentTrades ++ [success]
    let trades := if pushed.length > cb.config.failureRateWindow then pushed.tail else pushed
    { cb with
      recentTrades := trades
      consecutiveFailures := if success then 0 else cb.consecutiveFailures + 1 }

/-- Folding a whole sequence of outcomes through `recordTradeResult`. -/
def recordAll (cb : CircuitBreaker) (outcomes : List Bool) : CircuitBreaker :=
  outcomes.foldl recordTradeResult cb

/-- The `{tripped, reason}` result record returned by every check. -/
structure CheckResult where
  tripped : Bool
  reason : String
  deriving Repr, DecidableEq

/-- `checkConsecutiveFailures()`: trips when
`consecutiveFailures >= maxConsecutiveFailures`. -/
def checkConsecutiveFailures (cb : CircuitBreaker) : CheckResult :=
  if cb.consecutiveFailures ≥ cb.config.maxConsecutiveFailures then
    { tripped := true
      reason := "Circuit Breaker: " ++ toString cb.consecutiveFailures ++ " consecutive failures" }
  else { tripped := false, reason := "" }

/-- `Number.prototype.toFixed(1)` on an exact rational: round to the
nearest tenth, ties toward the larger value, and print one digit after
the point (the embedded values are non-negative). -/
def toFixed1 (x : ℚ) : String :=
  let t : Int := ⌊x * 10 + 1 / 2⌋
  toString (t / 10) ++ "." ++ toString (t % 10)

/-- `checkFailureRate()`: once the window is full, trips when the
fraction of failures among `recentTrades` strictly exceeds
`maxFailureRate`; the reason renders the rate as a percentage with one
decimal. -/
def checkFailureRate (cb : CircuitBreaker) : CheckResult :=
  if cb.recentTrades.length ≥ cb.config.failureRateWindow then
    let failures := (cb.recentTrades.filter (fun r => !r)).length
    let failureRate : ℚ := (failures : ℚ) / (cb.recentTrades.length : ℚ)
    if failureRate > cb.config.maxFailureRate then
      { tripped := true
        reason := "Circuit Breaker: " ++ toFixed1 (failureRate * 100) ++
          "% failure rate (last " ++ toString cb.config.failureRateWindow ++ " trades)" }
    else { tripped := false, reason := "" }
  else { tripped := false, reason := "" }

/-- `checkCircuitBreakers(connection, sinkKeypair)`: disabled breakers
never trip; otherwise the three checks run in order with short-circuit
on the first trip.  The third check (`checkEmergencyStopLoss`) awaits a
network balance query, so its result is passed in as the environment
value `stopLoss`. -/
def checkCircuitBreakers (cb : CircuitBreaker) (stopLoss : CheckResult) : CheckResult :=
  if !cb.config.enableCircuitBreaker then { tripped := false, reason := "" }
  else
    let r1 := checkConsecutiveFailures cb
    if r1.tripped then r1
    else
      let r2 := checkFailureRate cb
      if r2.tripped then r2
      else if stopLoss.tripped then stopLoss
      else { tripped := false, reason := "" }

/-- `LAMPORTS_PER_SOL` from `@solana/web3.js`. -/
def LAMPORTS_PER_SOL : Nat := 1000000000

/-- A normalized wallet record (`WalletManager.normalizeWalletData` output
shape). -/
structure WalletRecord where
  pubkey : String
  privateKey : List Nat
  name : String
  isSeasoned : Bool
  deriving Repr, DecidableEq

/-- A raw persisted record as returned by the wallet-data loader: `pubkey`,
`publicKey` and `name` may be absent (JavaScript `undefined`/falsy). -/
structure RawWallet where
  pubkey : Option String
  publicKey : Option String
  privateKey : List Nat
  name : Option String
  isSeasoned : Bool
  deriving Repr, DecidableEq

/-- `normalizeWalletData()`: derive a missing public id from the key
material (`derivePubkey` embeds
`Keypair.fromSecretKey(...).publicKey.toBase58()`), default the display
name, and default `isSeasoned` to `false`. -/
def normalizeWalletData (derivePubkey : List Nat → String) (walletData : List RawWallet) :
    List WalletRecord :=
  walletData.map fun w =>
    { pubkey := ((w.pubkey).orElse (fun _ => w.publicKey)).getD (derivePubkey w.privateKey)
      privateKey := w.privateKey
      name := w.name.getD "Wallet"
      isSeasoned := w.isSeasoned }

/-- The batch loop of `generateWallets()`: while `i < remaining` (here
`left = remaining - i`), build a batch of `min 1000 left` fresh keypairs
(each named after the current pool length plus the batch offset, exactly
as the source computes it), append it, and continue.  `fresh` is the
stream of keypairs the network client's generator returns, as
`(publicId, keyMaterial)` pairs. -/
def generateBatches (walletData : List WalletRecord) (fresh : List (String × List Nat))
    (i left : Nat) : List WalletRecord :=
  if h : left = 0 then walletData
  else
    let size := min 1000 left
    let batch : List WalletRecord := (fresh.take size).map fun kp =>
      { pubkey := kp.1
        privateKey := kp.2
        name := "Wallet" ++ toString (walletData.length + i + 1)
        isSeasoned := false }
    generateBatches (walletData ++ batch) (fresh.drop size) (i + 1000) (left - 1000)
termination_by left
decreasing_by omega

/-- `generateWallets()`: generate `numWalletsToGenerate - walletData.length`
additional records in batches of 1000. -/
def generateWallets (target : Nat) (walletData : List WalletRecord)
    (fresh : List (String × List Nat)) : List WalletRecord :=
  generateBatches walletData fresh 0 (target - walletData.length)

/-- `loadOrGenerateWallets()` restricted to the pool contents: load, then
normalize, then generate up to the target when the pool is short.  The
remaining steps of the method (loading special wallets, auto-scaling,
funding) never modify `walletData` and are embedded separately. -/
def loadOrGenerateWallets (derivePubkey : List Nat → String) (target : Nat)
    (loaded : List RawWallet) (fresh : List (String × List Nat)) : List WalletRecord :=
  let walletData := normalizeWalletData derivePubkey loaded
  if walletData.length < target then generateWallets target walletData fresh else walletData

/-- Environment of one `fundSingleWallet` call: the outcome of the
`getBalance` query (a value or a thrown error), the drawn part count
(`Math.floor(Math.random() * 4) + 1`), and per-part the drawn scale
factor (`Math.floor((0.6 + Math.random() * 0.8) * 1000)`) together with
whether the transfer's send-and-confirm round trip succeeded. -/
structure FundEnv where
  balance : Except String Nat
  parts : Nat
  steps : List (Nat × Bool)
  deriving Repr

/-- Observable outcome of one `fundSingleWallet` call: the new FundedSet,
how many balance queries ran, the lamport amounts of the completed
transfers, and whether the catch block was reached. -/
structure FundOutcome where
  funded : Finset String
  balanceQueries : Nat
  transfers : List Nat
  failed : Bool
  deriving DecidableEq

/-- The outcome of a call that does nothing: state unchanged, no balance
query, no transfer, no error. -/
def noopOutcome (funded : Finset String) : FundOutcome :=
  { funded := funded, balanceQueries := 0, transfers := [], failed := false }

/-- `calculateFundingPart(remaining, remainingParts)`: `BN` arithmetic on
non-negative lamport amounts, with the random factor already scaled to
the integer `factor ∈ [600, 1399]`.  `minBuffer` is
`MIN_SOL_BUFFER_LAMPORTS_BN` (declared in `constants.js`, outside the
covered sources, hence a parameter). -/
def calculateFundingPart (minBuffer remaining remainingParts factor : Nat) : Nat :=
  let basePart := remaining * factor / 1000 / remainingParts
  let partNum := max basePart minBuffer
  min partNum remaining

/-- The transfer loop of `fundSingleWallet`: up to `parts` iterations,
stopping when the remaining shortfall is no longer strictly above the
minimum buffer; a failed transfer throws, so the loop is abandoned with
the error flag set.  Returns the completed parts and the flag. -/
def fundingLoop (minBuffer : Nat) : Nat → Nat → List (Nat × Bool) → List Nat × Bool
  | _, 0, _ => ([], false)
  | _, _ + 1, [] => ([], false)
  | remaining, partsLeft + 1, (factor, ok) :: rest =>
    if minBuffer < remaining then
      let part := calculateFundingPart minBuffer remaining (partsLeft + 1) factor
      if ok then
        let r := fundingLoop minBuffer (remaining - part) partsLeft rest
        (part :: r.1, r.2)
      else ([], true)
    else ([], false)

/-- `fundSingleWallet(wallet)`: no-op when the id is already in the
FundedSet, otherwise the id is inserted (the lock) before any network
work; then the balance query runs, the 80%-of-target threshold is
checked, and the shortfall is split by the transfer loop.  A thrown
error anywhere lands in the catch block, which does not roll the lock
back. -/
def fundSingleWallet (minBuffer : Nat) (cfg : Config) (funded : Finset String)
    (w : WalletRecord) (env : FundEnv) : FundOutcome :=
  if w.pubkey ∈ funded then noopOutcome funded
  else
    let funded1 := insert w.pubkey funded
    match env.balance with
    | Except.error _ =>
      { funded := funded1, balanceQueries := 1, transfers := [], failed := true }
    | Except.ok balance =>
      let fundAmountLamports := (⌊cfg.fundAmount * (LAMPORTS_PER_SOL : ℚ)⌋).toNat
      let threshold := fundAmountLamports * 8 / 10
      if balance ≥ threshold then
        { funded := funded1, balanceQueries := 1, transfers := [], failed := false }
      else
        let remaining := fundAmountLamports - balance
        let r := fundingLoop minBuffer remaining env.parts env.steps
        { funded := funded1, balanceQueries := 1, transfers := r.1, failed := r.2 }

/-- `getWalletCooldown(walletKey)`: base cooldown scaled by
`1 + (tradeCount mod 5) * 0.2` and floored.  The base is drawn by
`getRandomNumberBetween(min, max)` (declared in `utils.js`, outside the
covered sources), so it is passed in as the drawn value
`baseCooldown`. -/
def getWalletCooldown (walletTradeCount : String → Option Nat) (walletKey : String)
    (baseCooldown : ℚ) : Int :=
  let tradeCount := (walletTradeCount walletKey).getD 0
  let cooldownMultiplier : ℚ := 1 + ((tradeCount % 5 : Nat) : ℚ) * (2 / 10)
  ⌊baseCooldown * cooldownMultiplier⌋

/-- The simultaneous swap
`[shuffled[i], shuffled[j]] = [shuffled[j], shuffled[i]]` on a list;
out-of-range indices leave the list unchanged (they never occur in the
embedded loop). -/
def swapAt {α : Type*} (l : List α) (i j : Nat) : List α :=
  match l[i]?, l[j]? with
  | some a, some b => (l.set i b).set j a
  | _, _ => l

/-- The Fisher–Yates loop of `shuffleArray`: `i` walks from
`length - 1` down to `1`, swapping position `i` with the drawn position
`j = Math.floor(Math.random() * (i + 1))`; `draws` is the stream of
drawn indices. -/
def fisherYatesAux {α : Type*} : List α → Nat → List Nat → List α
  | l, 0, _ => l
  | l, _ + 1, [] => l
  | l, i + 1, j :: draws => fisherYatesAux (swapAt l (i + 1) j) i draws

/-- `shuffleArray(array)`: copy, then shuffle the copy in place with
Fisher–Yates (the embedding is pure, so the input list is untouched by
construction, matching the `[...array]` copy in the source). -/
def shuffleArray {α : Type*} (array : List α) (draws : List Nat) : List α :=
  fisherYatesAux array (array.length - 1) draws

/-- `assignPersonalities()`: for each known public id in iteration order,
overwrite its entry with `PERSONALITIES[draw]`.  The `PERSONALITIES`
array lives in `constants.js` (outside the covered sources), so the
fixed finite set is the parameter `personalities`, and `draws` is the
stream of drawn indices `Math.floor(Math.random() * length)`. -/
def assignPersonalities (personalities : List String) :
    List String → List Nat → (String → Option String) → String → Option String
  | [], _, m => m
  | _ :: _, [], m => m
  | pubkey :: rest, d :: draws, m =>
    assignPersonalities personalities rest draws
      (fun k => if k = pubkey then some (personalities.getD d "") else m k)

end SOVO

namespace SOVO

/-- Concrete breaker state for the C1 counterexample: breaker enabled,
`maxConsecutiveFailures = 3`, and the counter already at `4` (reachable
by recording four failures between two breaker polls). -/
def cbC1 : CircuitBreaker :=
  { config :=
      { enableCircuitBreaker := true
        maxConsecutiveFailures := 3
        failureRateWindow := 10
        maxFailureRate := 3 / 10
        emergencyStopLoss := 1 / 5
        numWalletsToGenerate := 0
        fundAmount := 1
        minWalletCooldownMs := 1000
        maxWalletCooldownMs := 1000 }
    consecutiveFailures := 4
    recentTrades := [false, false, false, false]
    initialSinkBalance := 0
    checkCounter := 0 }

/-- Concrete breaker state for the C5 example: window 10, threshold 0.3,
four failures among the last ten outcomes. -/
def cbC5 : CircuitBreaker :=
  { config :=
      { enableCircuitBreaker := true
        maxConsecutiveFailures := 5
        failureRateWindow := 10
        maxFailureRate := 3 / 10
        emergencyStopLoss := 1 / 5
        numWalletsToGenerate := 0
        fundAmount := 1
        minWalletCooldownMs := 1000
        maxWalletCooldownMs := 1000 }
    consecutiveFailures := 0
    recentTrades := [false, true, false, true, true, false, true, true, false, true]
    initialSinkBalance := 0
    checkCounter := 0 }

/-- Configuration used by concrete window examples: breaker enabled with
`failureRateWindow = 2`. -/
def cfgC4 : Config :=
  { enableCircuitBreaker := true
    maxConsecutiveFailures := 3
    failureRateWindow := 2
    maxFailureRate := 3 / 10
    emergencyStopLoss := 1 / 5
    numWalletsToGenerate := 0
    fundAmount := 1
    minWalletCooldownMs := 1000
    maxWalletCooldownMs := 1000 }

/-- Configuration used by concrete funding examples: funding target 1 SOL. -/
def cfgFund : Config :=
  { enableCircuitBreaker := true
    maxConsecutiveFailures := 3
    failureRateWindow := 10
    maxFailureRate := 3 / 10
    emergencyStopLoss := 1 / 5
    numWalletsToGenerate := 0
    fundAmount := 1
    minWalletCooldownMs := 1000
    maxWalletCooldownMs := 1000 }

/-- A concrete wallet record for funding examples. -/
def wA : WalletRecord :=
  { pubkey := "walletA", privateKey := [1, 2], name := "WalletA", isSeasoned := false }

/-- A funding environment whose balance query throws. -/
def envFail : FundEnv :=
  { balance := Except.error "getBalance failed", parts := 2, steps := [(700, true), (800, true)] }

/-- A funding environment whose balance query returns zero and whose
transfers succeed. -/
def envOk : FundEnv :=
  { balance := Except.ok 0, parts := 1, steps := [(1000, true)] }

/-- A concrete persisted raw record for pool-generation examples. -/
def rawA : RawWallet :=
  { pubkey := some "A", publicKey := none, privateKey := [1], name := some "W1",
    isSeasoned := false }

end SOVO

namespace SOVO

/-- C1 counterexample: with the breaker enabled, `maxConsecutiveFailures = 3`
and the counter at `4`, the consecutive-failure check trips even though
the counter is not equal to the maximum — refuting "only exact equality
trips it". -/
theorem checkConsecutiveFailures_trips_above_max :
    cbC1.config.enableCircuitBreaker = true ∧
    (checkConsecutiveFailures cbC1).tripped = true ∧
    cbC1.consecutiveFailures ≠ cbC1.config.maxConsecutiveFailures := by
  refine ⟨rfl, rfl, ?_⟩
  decide

/-- C1 (amended): with the breaker enabled, the consecutive-failure check
trips if and only if `consecutiveFailures ≥ maxConsecutiveFailures`; in
particular it never trips for a smaller counter, and when it trips first
(short-circuiting `checkCircuitBreakers`) its result is the whole
evaluation's result. -/
theorem checkConsecutiveFailures_iff_ge (cb : CircuitBreaker) (sl : CheckResult)
    (henabled : cb.config.enableCircuitBreaker = true) :
    ((checkConsecutiveFailures cb).tripped = true ↔
      cb.config.maxConsecutiveFailures ≤ cb.consecutiveFailures) ∧
    (cb.config.maxConsecutiveFailures ≤ cb.consecutiveFailures →
      checkCircuitBreakers cb sl = checkConsecutiveFailures cb) := by
  constructor
  · unfold checkConsecutiveFailures
    split
    · simp_all
    · simp_all
  · intro hge
    unfold checkCircuitBreakers
    rw [henabled]
    have htrip : (checkConsecutiveFailures cb).tripped = true := by
      unfold checkConsecutiveFailures
      split
      · rfl
      · omega
    simp [htrip]

/-- Witness for the C1 amended theorem at the concrete state `cbC1`. -/
theorem checkConsecutiveFailures_iff_ge_witness :
    (checkConsecutiveFailures cbC1).tripped = true ↔
      cbC1.config.maxConsecutiveFailures ≤ cbC1.consecutiveFailures :=
  (checkConsecutiveFailures_iff_ge cbC1 { tripped := false, reason := "" } rfl).1

end SOVO

namespace SOVO

/-- One push-then-shift step preserves the "last `W` recorded outcomes"
shape of the sliding window. -/
lemma windowStep (W : Nat) (l : List Bool) (x : Bool) :
    (if (l.drop (l.length - W) ++ [x]).length > W then (l.drop (l.length - W) ++ [x]).tail
      else l.drop (l.length - W) ++ [x])
    = (l ++ [x]).drop ((l ++ [x]).length - W) := by
  rcases Nat.lt_or_ge l.length W with h | h
  · have h0 : l.length - W = 0 := by omega
    have h1 : (l ++ [x]).length - W = 0 := by simp; omega
    rw [h0, h1]
    simp only [List.drop_zero, List.length_append, List.length_cons]
    rw [if_neg]
    simp
    omega
  · rcases Nat.eq_zero_or_pos W with hW | hW
    · subst hW
      simp only [Nat.sub_zero, List.drop_length, List.nil_append, List.length_append]
      rw [if_pos (by simp)]
      rw [List.drop_eq_nil_of_le (by simp)]
      rfl
    · have hlen : (l.drop (l.length - W)).length = W := by
        rw [List.length_drop]; omega
      rw [if_pos (by simp [hlen])]
      have hne : l.drop (l.length - W) ≠ [] := by
        intro hnil
        rw [hnil] at hlen
        simp at hlen
        omega
      rw [List.tail_append_singleton_of_ne_nil hne, List.tail_drop]
      rw [List.drop_append_eq_append_drop]
      have h2 : (l ++ [x]).length - W - l.length = 0 := by simp; omega
      have h3 : (l ++ [x]).length - W = l.length - W + 1 := by simp; omega
      rw [h2, h3]
      simp

/-- Folding outcomes through `recordTradeResult` keeps `recentTrades`
equal to the last `failureRateWindow` outcomes recorded so far. -/
lemma recordAll_trades (cfg : Config) (hen : cfg.enableCircuitBreaker = true) :
    ∀ (outs : List Bool) (cb : CircuitBreaker) (prior : List Bool),
      cb.config = cfg →
      cb.recentTrades = prior.drop (prior.length - cfg.failureRateWindow) →
      (recordAll cb outs).recentTrades
        = (prior ++ outs).drop ((prior ++ outs).length - cfg.failureRateWindow) := by
  intro outs
  induction outs with
  | nil =>
    intro cb prior hc ht
    simpa [recordAll] using ht
  | cons s rest ih =>
    intro cb prior hc ht
    have hstep : recordAll cb (s :: rest) = recordAll (recordTradeResult cb s) rest := rfl
    rw [hstep]
    have hrec : (recordTradeResult cb s).recentTrades
        = (prior ++ [s]).drop ((prior ++ [s]).length - cfg.failureRateWindow) := by
      unfold recordTradeResult
      rw [hc, hen]
      simp only [Bool.not_true, Bool.false_eq_true, if_false]
      rw [ht]
      exact windowStep cfg.failureRateWindow prior s
    have hcfg : (recordTradeResult cb s).config = cfg := by
      unfold recordTradeResult
      split
      · exact hc
      · exact hc
    have := ih (recordTradeResult cb s) (prior ++ [s]) hcfg hrec
    rw [this]
    simp

/-- C4: starting from a fresh breaker with the circuit breaker enabled and
window size `W`, after recording any sequence of outcomes the
`recentTrades` buffer is exactly the last `min n W` outcomes in recording
order (oldest evicted first); in particular its length never exceeds
`W`. -/
theorem recordTradeResult_window (cfg : Config) (outs : List Bool)
    (hen : cfg.enableCircuitBreaker = true) :
    (recordAll (CircuitBreaker.init cfg) outs).recentTrades
      = outs.drop (outs.length - cfg.failureRateWindow) ∧
    (recordAll (CircuitBreaker.init cfg) outs).recentTrades.length
      = min outs.length cfg.failureRateWindow := by
  have h := recordAll_trades cfg hen outs (CircuitBreaker.init cfg) [] rfl (by simp [CircuitBreaker.init])
  simp only [List.nil_append] at h
  refine ⟨h, ?_⟩
  rw [h, List.length_drop]
  omega

/-- Witness for C4: window 2, outcomes `[true, false, true]` leave the
buffer at the last two outcomes `[false, true]`. -/
theorem recordTradeResult_window_witness :
    (recordAll (CircuitBreaker.init cfgC4) [true, false, true]).recentTrades = [false, true] ∧
    (recordAll (CircuitBreaker.init cfgC4) [true, false, true]).recentTrades.length = 2 := by
  have h := recordTradeResult_window cfgC4 [true, false, true] rfl
  exact ⟨h.1.trans (by decide), h.2.trans (by decide)⟩

/-- C5: the failure-rate check trips exactly when at least
`failureRateWindow` outcomes are buffered and the fraction of failures
strictly exceeds `maxFailureRate`; at the concrete state with window 10,
4 failures among 10 and threshold 3/10 it trips with reported rate
"40.0%". -/
theorem checkFailureRate_spec (cb : CircuitBreaker) :
    ((checkFailureRate cb).tripped = true ↔
      (cb.config.failureRateWindow ≤ cb.recentTrades.length ∧
        cb.config.maxFailureRate <
          ((cb.recentTrades.filter (fun r => !r)).length : ℚ) / (cb.recentTrades.length : ℚ))) ∧
    checkFailureRate cbC5 =
      { tripped := true
        reason := "Circuit Breaker: 40.0% failure rate (last 10 trades)" } := by
  constructor
  · simp only [checkFailureRate]
    split
    · split
      · simp_all
      · simp_all
    · simp_all
  · have hfilt : (cbC5.recentTrades.filter (fun r => !r)).length = 4 := rfl
    have hlen : cbC5.recentTrades.length = 10 := rfl
    simp only [checkFailureRate, hfilt, hlen]
    norm_num [cbC5, toFixed1, Int.floor_eq_iff]
    rfl

end SOVO

namespace SOVO

/-- On a fresh id, `fundSingleWallet` always ends with the id inserted in
the FundedSet and exactly one balance query, whatever the environment
does (throw, report a high balance, or run the transfer loop). -/
lemma fundSingleWallet_not_mem (minBuffer : Nat) (cfg : Config) (funded : Finset String)
    (w : WalletRecord) (env : FundEnv) (hmem : w.pubkey ∉ funded) :
    (fundSingleWallet minBuffer cfg funded w env).funded = insert w.pubkey funded ∧
    (fundSingleWallet minBuffer cfg funded w env).balanceQueries = 1 := by
  rcases henv : env.balance with e | b
  · simp [fundSingleWallet, hmem, henv]
  · simp only [fundSingleWallet, if_neg hmem, henv]
    constructor <;> (split <;> rfl)

/-- On an already-claimed id, `fundSingleWallet` is the no-op. -/
lemma fundSingleWallet_mem (minBuffer : Nat) (cfg : Config) (funded : Finset String)
    (w : WalletRecord) (env : FundEnv) (hmem : w.pubkey ∈ funded) :
    fundSingleWallet minBuffer cfg funded w env = noopOutcome funded := by
  simp [fundSingleWallet, hmem]

/-- C3: `fundSingleWallet` is idempotent via claim-before-work: a call on
an id already in the FundedSet is a no-op (no balance query, no
transfer, no state change); otherwise the id is inserted before any
network work — it is in the resulting set no matter what the balance
query or the transfers do — a call performs at most one balance query,
and a duplicate call after any first call is a no-op. -/
theorem fundSingleWallet_idempotent (minBuffer : Nat) (cfg : Config) (funded : Finset String)
    (w : WalletRecord) (env env2 : FundEnv) :
    (fundSingleWallet minBuffer cfg funded w env).balanceQueries ≤ 1 ∧
    w.pubkey ∈ (fundSingleWallet minBuffer cfg funded w env).funded ∧
    (w.pubkey ∈ funded → fundSingleWallet minBuffer cfg funded w env = noopOutcome funded) ∧
    (w.pubkey ∉ funded →
      (fundSingleWallet minBuffer cfg funded w env).funded = insert w.pubkey funded) ∧
    fundSingleWallet minBuffer cfg (fundSingleWallet minBuffer cfg funded w env).funded w env2
      = noopOutcome (fundSingleWallet minBuffer cfg funded w env).funded := by
  by_cases hmem : w.pubkey ∈ funded
  · have hres := fundSingleWallet_mem minBuffer cfg funded w env hmem
    rw [hres]
    exact ⟨by simp [noopOutcome], by simpa [noopOutcome] using hmem,
      fun _ => rfl, fun hn => absurd hmem hn,
      fundSingleWallet_mem minBuffer cfg funded w env2 (by simpa [noopOutcome] using hmem)⟩
  · obtain ⟨hf, hq⟩ := fundSingleWallet_not_mem minBuffer cfg funded w env hmem
    refine ⟨by rw [hq], by rw [hf]; exact Finset.mem_insert_self _ _,
      fun hmem2 => absurd hmem2 hmem, fun _ => hf, ?_⟩
    exact fundSingleWallet_mem minBuffer cfg _ w env2 (by rw [hf]; exact Finset.mem_insert_self _ _)

/-- Witness for C3: a call on an id already in the FundedSet is a no-op. -/
theorem fundSingleWallet_idempotent_witness :
    fundSingleWallet 10 cfgFund {"walletA"} wA envOk = noopOutcome {"walletA"} :=
  (fundSingleWallet_idempotent 10 cfgFund {"walletA"} wA envOk envOk).2.2.1 (by decide)

/-- C2 counterexample: on a failing balance query the call reports the
failure, yet the wallet's id *is* in the FundedSet afterwards — refuting
"its publicId is not in FundedSet after the failed call". -/
theorem fundSingleWallet_failed_id_in_fundedSet :
    (fundSingleWallet 10 cfgFund ∅ wA envFail).failed = true ∧
    wA.pubkey ∈ (fundSingleWallet 10 cfgFund ∅ wA envFail).funded := by
  decide

/-- C2 (amended): when a funding attempt for a fresh id fails mid-attempt,
the id remains claimed in the FundedSet (the claim is not rolled back),
so any later funding call for that id in the same run is deduplicated as
a no-op — the account is not retried within the run. -/
theorem fundSingleWallet_failure_keeps_claim (minBuffer : Nat) (cfg : Config)
    (funded : Finset String) (w : WalletRecord) (env : FundEnv)
    (hmem : w.pubkey ∉ funded)
    (_hfail : (fundSingleWallet minBuffer cfg funded w env).failed = true) :
    w.pubkey ∈ (fundSingleWallet minBuffer cfg funded w env).funded ∧
    ∀ env2, fundSingleWallet minBuffer cfg (fundSingleWallet minBuffer cfg funded w env).funded w env2
      = noopOutcome (fundSingleWallet minBuffer cfg funded w env).funded := by
  obtain ⟨hf, _⟩ := fundSingleWallet_not_mem minBuffer cfg funded w env hmem
  refine ⟨by rw [hf]; exact Finset.mem_insert_self _ _, fun env2 => ?_⟩
  exact fundSingleWallet_mem minBuffer cfg _ w env2 (by rw [hf]; exact Finset.mem_insert_self _ _)

/-- Witness for the C2 amended theorem at the concrete failing
environment. -/
theorem fundSingleWallet_failure_keeps_claim_witness :
    wA.pubkey ∈ (fundSingleWallet 10 cfgFund ∅ wA envFail).funded :=
  (fundSingleWallet_failure_keeps_claim 10 cfgFund ∅ wA envFail (by decide) (by decide)).1

end SOVO

namespace SOVO

/-- A single part is clamped between the minimum buffer and the remaining
shortfall whenever the loop guard `remaining > minBuffer` holds. -/
lemma calculateFundingPart_le (minBuffer remaining remainingParts factor : Nat)
    (h : minBuffer < remaining) :
    minBuffer ≤ calculateFundingPart minBuffer remaining remainingParts factor ∧
    calculateFundingPart minBuffer remaining remainingParts factor ≤ remaining := by
  unfold calculateFundingPart
  exact ⟨le_min (le_max_right _ _) h.le, min_le_right _ _⟩

/-- Every part produced by the transfer loop is between the minimum buffer
and the initial shortfall, and the parts sum to at most the initial
shortfall. -/
lemma fundingLoop_bounds (minBuffer : Nat) :
    ∀ (partsLeft remaining : Nat) (steps : List (Nat × Bool)),
      (fundingLoop minBuffer remaining partsLeft steps).1.sum ≤ remaining ∧
      ∀ x ∈ (fundingLoop minBuffer remaining partsLeft steps).1,
        minBuffer ≤ x ∧ x ≤ remaining := by
  intro partsLeft
  induction partsLeft with
  | zero => intro remaining steps; simp [fundingLoop]
  | succ n ih =>
    intro remaining steps
    cases steps with
    | nil => simp [fundingLoop]
    | cons st rest =>
      obtain ⟨factor, ok⟩ := st
      simp only [fundingLoop]
      split
      · rename_i hrem
        obtain ⟨hlow, hhigh⟩ :=
          calculateFundingPart_le minBuffer remaining (n + 1) factor hrem
        split
        · obtain ⟨hsum, hmem⟩ :=
            ih (remaining - calculateFundingPart minBuffer remaining (n + 1) factor) rest
          constructor
          · simp only [List.sum_cons]
            omega
          · intro x hx
            rcases List.mem_cons.mp hx with hx | hx
            · subst hx; exact ⟨hlow, hhigh⟩
            · obtain ⟨h1, h2⟩ := hmem x hx
              exact ⟨h1, by omega⟩
        · simp
      · simp

/-- C8: whenever the remaining shortfall strictly exceeds the minimum
buffer (the loop guard), `calculateFundingPart` returns a part between
the minimum buffer and the remaining shortfall, and over the whole
transfer loop the parts sent sum to at most the initial shortfall. -/
theorem fundingPart_bounded (minBuffer remaining remainingParts factor parts : Nat)
    (steps : List (Nat × Bool)) :
    (minBuffer < remaining →
      minBuffer ≤ calculateFundingPart minBuffer remaining remainingParts factor ∧
      calculateFundingPart minBuffer remaining remainingParts factor ≤ remaining) ∧
    (fundingLoop minBuffer remaining parts steps).1.sum ≤ remaining ∧
    ∀ x ∈ (fundingLoop minBuffer remaining parts steps).1,
      minBuffer ≤ x ∧ x ≤ remaining := by
  obtain ⟨hsum, hmem⟩ := fundingLoop_bounds minBuffer parts remaining steps
  exact ⟨fun h => calculateFundingPart_le minBuffer remaining remainingParts factor h,
    hsum, hmem⟩

/-- Witness for C8 at the spec's example `remaining = 1000`,
`minBuffer = 10`: the single part is within bounds and the loop total is
at most the shortfall. -/
theorem fundingPart_bounded_witness :
    (10 ≤ calculateFundingPart 10 1000 4 600 ∧ calculateFundingPart 10 1000 4 600 ≤ 1000) ∧
    (fundingLoop 10 1000 4 [(600, true), (1399, true), (800, true), (700, true)]).1.sum ≤ 1000 := by
  have h := fundingPart_bounded 10 1000 4 600 4 [(600, true), (1399, true), (800, true), (700, true)]
  exact ⟨h.1 (by decide), h.2.1⟩

end SOVO

namespace SOVO

/-- C9: `getWalletCooldown` returns
`floor(baseCooldown * (1 + (tradeCount mod 5) * 0.2))` for a base drawn
from the configured `[min, max]` range; with `tradeCount = 3` and
`min = max = 1000`, every call returns exactly `1600`. -/
theorem getWalletCooldown_formula (walletTradeCount : String → Option Nat) (walletKey : String)
    (mn mx baseCooldown : ℚ) (hmn : mn ≤ baseCooldown) (hmx : baseCooldown ≤ mx) :
    getWalletCooldown walletTradeCount walletKey baseCooldown
      = ⌊baseCooldown * (1 + ((((walletTradeCount walletKey).getD 0) % 5 : Nat) : ℚ) * (2 / 10))⌋ ∧
    (mn = 1000 → mx = 1000 → walletTradeCount walletKey = some 3 →
      getWalletCooldown walletTradeCount walletKey baseCooldown = 1600) := by
  refine ⟨rfl, fun h1000 h1000x htc => ?_⟩
  have hbase : baseCooldown = 1000 := by
    rw [h1000] at hmn
    rw [h1000x] at hmx
    linarith
  subst hbase
  simp only [getWalletCooldown, htc, Option.getD_some]
  norm_num [Int.floor_eq_iff]

/-- Witness for C9 at `tradeCount = 3`, `min = max = base = 1000`. -/
theorem getWalletCooldown_formula_witness :
    getWalletCooldown (fun _ => some 3) "walletA" 1000 = 1600 :=
  (getWalletCooldown_formula (fun _ => some 3) "walletA" 1000 1000 1000 le_rfl le_rfl).2
    rfl rfl rfl

/-- C6 counterexample: with personalities `["alpha", "beta"]`, a first
`assignPersonalities` pass assigns `"alpha"` to wallet `"w"`, and a
second pass (different random draw) overwrites it with `"beta"` — the
call reassigns ids that already hold a tag, refuting idempotence per
account. -/
theorem assignPersonalities_reassigns :
    assignPersonalities ["alpha", "beta"] ["w"] [0] (fun _ => none) "w" = some "alpha" ∧
    assignPersonalities ["alpha", "beta"] ["w"] [1]
      (assignPersonalities ["alpha", "beta"] ["w"] [0] (fun _ => none)) "w" = some "beta" ∧
    some "beta" ≠ some "alpha" := by
  exact ⟨rfl, rfl, by decide⟩

/-- C6 (amended): `assignPersonalities` assigns a drawn personality tag to
*every* known publicId, overwriting any existing assignment (so it is
not idempotent per assigned account); ids outside the known set are
untouched.  Each assigned tag is the element of the fixed finite set
selected by that id's draw. -/
theorem assignPersonalities_overwrites_all (personalities : List String)
    (pubkeys : List String) (draws : List Nat) (m : String → Option String)
    (hnodup : pubkeys.Nodup) (hlen : draws.length = pubkeys.length) :
    (∀ k, k ∉ pubkeys → assignPersonalities personalities pubkeys draws m k = m k) ∧
    ∀ p ∈ pubkeys.zip draws,
      assignPersonalities personalities pubkeys draws m p.1
        = some (personalities.getD p.2 "") := by
  induction pubkeys generalizing draws m with
  | nil => exact ⟨fun k _ => rfl, fun p hp => absurd hp (by simp)⟩
  | cons pk rest ih =>
    cases draws with
    | nil => simp at hlen
    | cons d ds =>
      have hnd := List.nodup_cons.mp hnodup
      obtain ⟨hout, hin⟩ :=
        ih ds (fun k => if k = pk then some (personalities.getD d "") else m k)
          hnd.2 (by simpa using hlen)
      constructor
      · intro k hk
        have hk1 : k ≠ pk := fun h => hk (h ▸ List.mem_cons_self pk rest)
        have hk2 : k ∉ rest := fun h => hk (List.mem_cons_of_mem pk h)
        simp only [assignPersonalities, hout k hk2, if_neg hk1]
      · intro p hp
        rcases List.mem_cons.mp hp with hp | hp
        · subst hp
          show assignPersonalities personalities rest ds _ pk = _
          rw [hout pk hnd.1]
          simp
        · exact hin p hp

/-- Witness for the C6 amended theorem: one pass over two fresh ids
assigns each its drawn tag and leaves other keys untouched. -/
theorem assignPersonalities_overwrites_all_witness :
    (∀ k, k ∉ ["w1", "w2"] →
      assignPersonalities ["alpha", "beta"] ["w1", "w2"] [1, 0] (fun _ => none) k = none) ∧
    ∀ p ∈ (["w1", "w2"].zip [1, 0] : List (String × Nat)),
      assignPersonalities ["alpha", "beta"] ["w1", "w2"] [1, 0] (fun _ => none) p.1
        = some ((["alpha", "beta"] : List String).getD p.2 "") :=
  assignPersonalities_overwrites_all ["alpha", "beta"] ["w1", "w2"] [1, 0] (fun _ => none)
    (by decide) rfl

end SOVO

namespace SOVO

/-- Moving the element at position `k` to the head while writing `x` into
position `k` permutes a cons of the list. -/
lemma cons_set_perm {α : Type*} :
    ∀ (t : List α) (k : Nat) (x : α) (hk : k < t.length),
      List.Perm (t[k] :: t.set k x) (x :: t) := by
  intro t
  induction t with
  | nil => intro k x hk; simp at hk
  | cons y s ih =>
    intro k x hk
    cases k with
    | zero => exact List.Perm.swap x y s
    | succ k =>
      have hk2 : k < s.length := by simpa using hk
      show List.Perm (s[k] :: y :: s.set k x) (x :: y :: s)
      exact ((List.Perm.swap y s[k] (s.set k x)).trans ((ih k x hk2).cons y)).trans
        (List.Perm.swap x y s)

/-- The simultaneous in-bounds swap of positions `i` and `j` is a
permutation. -/
lemma set_set_perm {α : Type*} :
    ∀ (l : List α) (i j : Nat) (hi : i < l.length) (hj : j < l.length),
      List.Perm ((l.set i l[j]).set j l[i]) l := by
  intro l
  induction l with
  | nil => intro i j hi hj; simp at hi
  | cons y t ih =>
    intro i j hi hj
    cases i with
    | zero =>
      cases j with
      | zero => exact List.Perm.refl _
      | succ k =>
        have hk : k < t.length := by simpa using hj
        show List.Perm (t[k] :: t.set k y) (y :: t)
        exact cons_set_perm t k y hk
    | succ n =>
      cases j with
      | zero =>
        have hn : n < t.length := by simpa using hi
        show List.Perm (t[n] :: t.set n y) (y :: t)
        exact cons_set_perm t n y hn
      | succ k =>
        have hn : n < t.length := by simpa using hi
        have hk : k < t.length := by simpa using hj
        show List.Perm (y :: (t.set n t[k]).set k t[n]) (y :: t)
        exact (ih n k hn hk).cons y

/-- `swapAt` always returns a permutation of its input, also at
out-of-range indices (where it is the identity). -/
lemma swapAt_perm {α : Type*} (l : List α) (i j : Nat) : List.Perm (swapAt l i j) l := by
  unfold swapAt
  cases hi : l[i]? with
  | none =>
    cases hj : l[j]? with
    | none => simp only [hi, hj]; exact List.Perm.refl l
    | some b => simp only [hi, hj]; exact List.Perm.refl l
  | some a =>
    cases hj : l[j]? with
    | none => simp only [hi, hj]; exact List.Perm.refl l
    | some b =>
      simp only [hi, hj]
      obtain ⟨hilt, hia⟩ := List.getElem?_eq_some.mp hi
      obtain ⟨hjlt, hjb⟩ := List.getElem?_eq_some.mp hj
      rw [← hia, ← hjb]
      exact set_set_perm l i j hilt hjlt

/-- The Fisher–Yates loop is a chain of swaps, hence a permutation for
every draw stream. -/
lemma fisherYatesAux_perm {α : Type*} :
    ∀ (i : Nat) (l : List α) (draws : List Nat), List.Perm (fisherYatesAux l i draws) l := by
  intro i
  induction i with
  | zero => intro l draws; exact List.Perm.refl l
  | succ n ih =>
    intro l draws
    cases draws with
    | nil => exact List.Perm.refl l
    | cons j js =>
      show List.Perm (fisherYatesAux (swapAt l (n + 1) j) n js) l
      exact (ih (swapAt l (n + 1) j) js).trans (swapAt_perm l (n + 1) j)

/-- C10: for every input list and every stream of random draws,
`shuffleArray` returns a permutation of its input — same length and same
multiset of elements.  (The embedding is pure: the input list itself is
unchanged, matching the `[...array]` copy the source makes before
swapping in place.) -/
theorem shuffleArray_perm {α : Type*} (array : List α) (draws : List Nat) :
    List.Perm (shuffleArray array draws) array ∧
    (shuffleArray array draws).length = array.length ∧
    ((shuffleArray array draws : List α) : Multiset α) = (array : Multiset α) := by
  have h : List.Perm (shuffleArray array draws) array :=
    fisherYatesAux_perm (array.length - 1) array draws
  exact ⟨h, h.length_eq, Multiset.coe_eq_coe.mpr h⟩

end SOVO

namespace SOVO

/-- The batch loop appends exactly the fresh public ids to the pool's id
sequence when the fresh stream has exactly `left` keypairs. -/
lemma generateBatches_pubkeys :
    ∀ (left : Nat) (walletData : List WalletRecord) (fresh : List (String × List Nat)) (i : Nat),
      fresh.length = left →
      (generateBatches walletData fresh i left).map (fun w => w.pubkey)
        = walletData.map (fun w => w.pubkey) ++ fresh.map (fun kp => kp.1) := by
  intro left
  induction left using Nat.strong_induction_on with
  | _ left ih =>
    intro walletData fresh i hlen
    rw [generateBatches.eq_def]
    split
    · rename_i h0
      have hnil : fresh = [] := List.eq_nil_of_length_eq_zero (by omega)
      subst hnil
      simp
    · rename_i h0
      dsimp only
      rw [ih (left - 1000) (by omega) _ _ (i + 1000) (by rw [List.length_drop]; omega)]
      simp only [List.map_append, List.map_map, List.append_assoc]
      congr 1
      rw [show ((fun w => w.pubkey) ∘ fun kp : String × List Nat =>
          ({ pubkey := kp.1, privateKey := kp.2,
             name := "Wallet" ++ toString (walletData.length + i + 1),
             isSeasoned := false } : WalletRecord)) = (fun kp : String × List Nat => kp.1) from rfl]
      rw [← List.map_append, List.take_append_drop]

/-- C7: when the persisted pool has `P < T` records and the keypair
generator supplies `T - P` fresh keypairs whose public ids are distinct
from each other and from the loaded ones, `loadOrGenerateWallets` ends
with exactly `T` records and every public id appears exactly once. -/
theorem loadOrGenerateWallets_fills_pool (derivePubkey : List Nat → String) (target : Nat)
    (loaded : List RawWallet) (fresh : List (String × List Nat))
    (hshort : loaded.length < target)
    (hcount : fresh.length = target - loaded.length)
    (hnodup : ((normalizeWalletData derivePubkey loaded).map (fun w => w.pubkey)
        ++ fresh.map (fun kp => kp.1)).Nodup) :
    (loadOrGenerateWallets derivePubkey target loaded fresh).length = target ∧
    ((loadOrGenerateWallets derivePubkey target loaded fresh).map (fun w => w.pubkey)).Nodup := by
  have hnl : (normalizeWalletData derivePubkey loaded).length = loaded.length := by
    simp [normalizeWalletData]
  have hmap :
      (loadOrGenerateWallets derivePubkey target loaded fresh).map (fun w => w.pubkey)
        = (normalizeWalletData derivePubkey loaded).map (fun w => w.pubkey)
          ++ fresh.map (fun kp => kp.1) := by
    simp only [loadOrGenerateWallets, generateWallets]
    rw [if_pos (by rw [hnl]; exact hshort)]
    exact generateBatches_pubkeys _ _ fresh 0 (by rw [hnl]; exact hcount)
  constructor
  · have hlen := congrArg List.length hmap
    simp only [List.length_map, List.length_append] at hlen
    rw [hlen, hnl, hcount]
    omega
  · rw [hmap]
    exact hnodup

/-- Witness for C7: one loaded record, target 2, one fresh keypair with a
distinct id give a pool of 2 records with distinct ids. -/
theorem loadOrGenerateWallets_fills_pool_witness :
    (loadOrGenerateWallets (fun _ => "derived") 2 [rawA] [("B", [9])]).length = 2 ∧
    ((loadOrGenerateWallets (fun _ => "derived") 2 [rawA] [("B", [9])]).map
      (fun w => w.pubkey)).Nodup :=
  loadOrGenerateWallets_fills_pool (fun _ => "derived") 2 [rawA] [("B", [9])]
    (by decide) (by decide) (by decide)

end SOVO
